import Mathlib

/-!
Verification development for the MegaLLM_toy repository.

The repository has two Python source files: `main.py` (proxy pool manager
`ProxyPool`, the registration orchestration `register_once` with its helper
request functions, and the concurrency driver `main`) and
`browser_handler.py` (the browser verification session and the
`CookieManager` session cache).

This file gives a shallow embedding of the state and operations those files
implement, and settles the specification claims against it.  Python dicts
are modelled as association lists preserving insertion order (keys unique in
every state the program builds); Python lists as Lean lists; wall-clock
times as integers; network results (HTTP responses, probe outcomes, browser
results) as explicit oracle arguments, since they are inputs to the logic
under verification.  The concurrent sweep in `health_check_all` is embedded
as a sequential fold over the pre-computed check list in submission order
(the Python code processes completed futures one at a time in the calling
thread, holding the pool lock for each mutation; the order of completion is
immaterial to the properties proved here, which are established for the
recorded order).
-/

/-! ## Association lists (Python `dict` model) -/

/-- Lookup in an insertion-ordered association list, as Python `d.get(k)` /
`d[k]`. -/
def aget {β : Type} : List (String × β) → String → Option β
  | [], _ => none
  | (q, v) :: t, p => if q = p then some v else aget t p

/-- Update/insert, as Python `d[k] = v`: an existing key keeps its position,
a new key is appended at the end. -/
def aset {β : Type} : List (String × β) → String → β → List (String × β)
  | [], p, v => [(p, v)]
  | (q, w) :: t, p, v => if q = p then (q, v) :: t else (q, w) :: aset t p v

/-- Deletion, as Python `del d[k]` (keys are unique in every dict the program
builds, so removing the first occurrence is deletion). -/
def aerase {β : Type} : List (String × β) → String → List (String × β)
  | [], _ => []
  | (q, w) :: t, p => if q = p then t else (q, w) :: aerase t p

/-! ## ProxyPool (`main.py`, class `ProxyPool`) -/

/-- The mutable state of `ProxyPool` (`main.py` lines 33-35), together with
the durable state file `proxy_pool_state.json`: `stateFile` is the
`failed_proxies` map currently persisted on disk (`none` = no file), and
`fileWrites` counts the `save_state` calls performed, so that frame claims
about the file can be stated. -/
structure PoolState where
  allProxies : List String
  activeProxies : List String
  failedProxies : List (String × Nat)
  maxFailures : Nat
  stateFile : Option (List (String × Nat))
  fileWrites : Nat
deriving Repr, DecidableEq

/-- Failure count of a node: its entry in `failed_proxies`, or 0 when it has
none (a node never marked failed). -/
def failureCount (s : PoolState) (p : String) : Nat :=
  (aget s.failedProxies p).getD 0

/-- `ProxyPool.save_state` (`main.py` lines 106-116): writes the current
`failed_proxies` map to the state file. -/
def save_state (s : PoolState) : PoolState :=
  { s with stateFile := some s.failedProxies, fileWrites := s.fileWrites + 1 }

/-- `ProxyPool.load_state` (`main.py` lines 83-104) applied after
`load_proxies_from_clash_api` produced `allP`: with no state file (or an
unreadable one, which leaves `failed_proxies` at its initial `{}`), all
loaded nodes are active; otherwise `failed_proxies` is taken from the file
and the active list is every loaded node that has no entry in it. -/
def load_state (allP : List String) (maxF : Nat)
    (file : Option (List (String × Nat))) : PoolState :=
  match file with
  | none => ⟨allP, allP, [], maxF, none, 0⟩
  | some failed =>
      ⟨allP, allP.filter (fun p => (aget failed p).isNone), failed, maxF,
        some failed, 0⟩

/-- `ProxyPool.mark_proxy_failed` (`main.py` lines 162-177): seed a missing
entry at 0, increment it, and once the count reaches `max_failures` remove
the node from the active list (if present) and persist state.  The state
file is written only on that removal path. -/
def mark_proxy_failed (s : PoolState) (p : String) : PoolState :=
  let c := (aget s.failedProxies p).getD 0 + 1
  let failed := aset s.failedProxies p c
  if s.maxFailures ≤ c ∧ p ∈ s.activeProxies then
    { s with failedProxies := failed, activeProxies := s.activeProxies.erase p,
             stateFile := some failed, fileWrites := s.fileWrites + 1 }
  else
    { s with failedProxies := failed }

/-- Processing of one completed health probe inside
`ProxyPool.health_check_all` (`main.py` lines 225-243): an active node whose
probe failed is passed to `mark_proxy_failed`; otherwise a node with a
failure record whose probe passed has the record deleted and re-enters the
active list if absent from it; otherwise nothing changes.  `h p` is the
probe outcome (`check_proxy_health`) for node `p`, an oracle since it is a
network result. -/
def hcaStep (h : String → Bool) (s : PoolState) (p : String) : PoolState :=
  if p ∈ s.activeProxies ∧ h p = false then
    mark_proxy_failed s p
  else if (aget s.failedProxies p).isSome ∧ h p = true then
    { s with failedProxies := aerase s.failedProxies p,
             activeProxies :=
               if p ∈ s.activeProxies then s.activeProxies
               else s.activeProxies ++ [p] }
  else s

/-- `ProxyPool.health_check_all` (`main.py` lines 207-249): the check list is
the active list plus the keys of `failed_proxies`, computed up front; with
nothing to check the function returns without touching the state file;
otherwise every probe result is processed and state is persisted once at the
end (in addition to any `save_state` performed inside `mark_proxy_failed`). -/
def health_check_all (h : String → Bool) (s : PoolState) : PoolState :=
  let toCheck := s.activeProxies ++ s.failedProxies.map Prod.fst
  if toCheck = [] then s
  else save_state (toCheck.foldl (hcaStep h) s)

/-- `ProxyPool.check_proxy_health` (`main.py` lines 179-205): false when the
controller switch fails; otherwise the probe request is made (`probe = none`
models a raised request exception, `some code` the response status) and
success is exactly a status of 200 or 204. -/
def check_proxy_health (switchOk : Bool) (probe : Option Nat) : Bool :=
  if switchOk = false then false
  else
    match probe with
    | none => false
    | some code => code == 200 || code == 204

/-- The spec's words for the `checkHealth` acceptance set, for comparison
with the source: a status in the 2xx range, with 204 called out
("success is status-code based (2xx/204 range accepted)"). -/
def specAccepts2xx (code : Nat) : Bool :=
  (200 ≤ code && code < 300) || code == 204

/-! ### `get_next_proxy` with the pool lock modelled

`ProxyPool.get_next_proxy` (`main.py` lines 144-160) runs its whole body
inside `with self.lock`, where `self.lock` is a non-reentrant
`threading.Lock` (`main.py` line 36).  On a switch failure it calls
`self.mark_proxy_failed` — whose body starts with `with self.lock` — and
then recurses into `self.get_next_proxy()`, both while the lock is still
held.  Acquiring a held non-reentrant lock blocks the thread forever, so the
embedding returns `none` (no result is ever produced) for any acquisition of
a held lock; `none` on fuel exhaustion likewise means no result within that
many steps, and a `none` result for every fuel value is divergence. -/

/-- `mark_proxy_failed` as invoked with the lock state explicit: its body
must first acquire the pool lock, which blocks forever if already held. -/
def mark_proxy_failed_locked (lockHeld : Bool) (s : PoolState) (p : String) :
    Option PoolState :=
  if lockHeld then none else some (mark_proxy_failed s p)

/-- `ProxyPool.get_next_proxy` (`main.py` lines 144-160) with the lock
explicit.  `switchOk` is the controller switch outcome per node
(`switch_proxy`, lines 118-142), `choose` the `random.choice` selection. -/
def get_next_proxy (switchOk : String → Bool) (choose : List String → String) :
    Nat → Bool → PoolState → Option (PoolState × Option String)
  | 0, _, _ => none
  | Nat.succ fuel, lockHeld, s =>
    if lockHeld then none
    else if s.activeProxies = [] then some (s, none)
    else
      let p := choose s.activeProxies
      if switchOk p then some (s, some p)
      else
        match mark_proxy_failed_locked true s p with
        | none => none
        | some s' => get_next_proxy switchOk choose fuel true s'

/-! ## CookieManager (`browser_handler.py`, lines 300-358) -/

/-- One value of the cookies cache: the cookie mapping plus its acquisition
timestamp (`set_cookies` stores `{'cookies': ..., 'timestamp': time.time()}`). -/
structure CacheEntry where
  cookies : List (String × String)
  timestamp : Int
deriving Repr, DecidableEq

/-- The `CookieManager` in-memory store: a dict keyed by proxy name (or
`"default"`). -/
structure CookieStore where
  cookiesCache : List (String × CacheEntry)
deriving Repr, DecidableEq

/-- The cache key for a proxy name: the name, or `"default"` when no proxy is
in use (`proxy_name or 'default'`). -/
def cacheKey (proxyName : Option String) : String :=
  proxyName.getD "default"

/-- `CookieManager.set_cookies` (`browser_handler.py` lines 331-339): store
the bundle under the key with the current time as timestamp. -/
def set_cookies (now : Int) (m : CookieStore) (cookies : List (String × String))
    (proxyName : Option String) : CookieStore :=
  ⟨aset m.cookiesCache (cacheKey proxyName) ⟨cookies, now⟩⟩

/-- `CookieManager.is_expired` (`browser_handler.py` lines 341-350): true
when the key has no entry, or when `now - timestamp > max_age`. -/
def is_expired (now : Int) (m : CookieStore) (proxyName : Option String)
    (maxAge : Int) : Bool :=
  match aget m.cookiesCache (cacheKey proxyName) with
  | none => true
  | some e => decide (maxAge < now - e.timestamp)

/-- `CookieManager.get_cookies` (`browser_handler.py` lines 325-329): the
stored entry, `none` modelling the `{}` default for a missing key. -/
def get_cookies (m : CookieStore) (proxyName : Option String) :
    Option CacheEntry :=
  aget m.cookiesCache (cacheKey proxyName)

/-- `CookieManager.clear_cookies` (`browser_handler.py` lines 352-358):
delete the key's entry if present. -/
def clear_cookies (m : CookieStore) (proxyName : Option String) : CookieStore :=
  ⟨aerase m.cookiesCache (cacheKey proxyName)⟩

/-! ## Task orchestrator (`main.py`, `signup_account` and `register_once`)

The HTTP responses, mailbox contents and browser results that drive the
orchestration are inputs; they are passed as explicit oracle values.  The
modelled run is one `register_once` call in which a proxy node was obtained
from the pool (the claims' scenario), so every `mark_proxy_failed` report
targets that node. -/

/-- One outcome of the signup POST inside `signup_account`'s retry loop:
`exn` is a raised `RequestException`; `ok checkpoint status messageOk`
is a received response, where `checkpoint` is the Vercel checkpoint test
(`'checkpoint' in response.url.lower() or 'verifying your browser' in
response.text.lower()`, `main.py` line 377) and `messageOk` whether the
JSON body parsed with the exact confirmation-pending message (a JSON decode
error counts as `messageOk = false`; both lead to the same retry). -/
inductive SignupResp where
  | exn : SignupResp
  | ok (checkpoint : Bool) (status : Nat) (messageOk : Bool) : SignupResp
deriving Repr, DecidableEq

/-- Result of `signup_account`: the `success` / `need_browser_verification`
fields of the returned dict, plus the number of signup requests issued. -/
structure SignupOutcome where
  success : Bool
  needBrowserVerification : Bool
  requests : Nat
deriving Repr, DecidableEq

/-- The retry loop of `signup_account` (`main.py` lines 368-432), recursing
on the remaining retry budget: a checkpoint response returns immediately
with `need_browser_verification`; a 200 response with the expected message
returns success; every other response or exception consumes one retry. -/
def signupLoop (resp : Nat → SignupResp) : Nat → Nat → SignupOutcome
  | attempt, 0 => ⟨false, false, attempt⟩
  | attempt, Nat.succ remaining =>
    match resp attempt with
    | .exn => signupLoop resp (attempt + 1) remaining
    | .ok cp status msgOk =>
      if cp then ⟨false, true, attempt + 1⟩
      else if status == 200 && msgOk then ⟨true, false, attempt + 1⟩
      else signupLoop resp (attempt + 1) remaining

/-- `signup_account` (`main.py` lines 333-432): run the retry loop from
attempt 0 with the configured `max_retries` budget. -/
def signup_account (resp : Nat → SignupResp) (maxRetries : Nat) :
    SignupOutcome :=
  signupLoop resp 0 maxRetries

/-- A response that the signup loop retries on: an exception, or a
non-checkpoint response that is not a 200 with the expected message. -/
def isRetryFailure : SignupResp → Bool
  | .exn => true
  | .ok cp st m => !cp && !(st == 200 && m)

/-- A response flagged as a checkpoint interception. -/
def isCheckpointResp : SignupResp → Bool
  | .exn => false
  | .ok cp _ _ => cp

/-- Result of one `verify_email` call (`main.py` lines 519-593): the
`success` field and whether `need_browser_verification` was set (checkpoint
detected on a non-200 response). -/
structure VerifyResult where
  success : Bool
  needBrowserVerification : Bool
deriving Repr, DecidableEq

/-- The oracle inputs of one `register_once` run (`main.py` lines 817-1012):
whether a cookie manager is in use, the signup retry budget and responses,
whether `get_temp_email` produced an address, whether `poll_emails` returned
a non-empty mail list, the result of `extract_verification_code`, the first
`verify_email` result, whether the browser re-verification after a verify
checkpoint produced cookies, and the retried `verify_email` result. -/
structure RegInputs where
  hasCookieManager : Bool
  maxRetries : Nat
  signupResp : Nat → SignupResp
  emailOk : Bool
  gotEmails : Bool
  extractedCode : Option String
  firstVerify : VerifyResult
  freshCookies : Bool
  secondVerify : VerifyResult

/-- What one `register_once` run did: the pool state it leaves behind, how
many times it called `mark_proxy_failed` (always on the node it selected),
how many signup requests were issued, how many cookie-refresh cycles
(clear cached cookies + browser re-verification) it performed, how many
`verify_email` calls it made, and its returned success flag. -/
structure RunOutcome where
  pool : PoolState
  markFailedCalls : Nat
  signupRequests : Nat
  cookieRefreshes : Nat
  verifyCalls : Nat
  success : Bool
deriving Repr

/-- `register_once` (`main.py` lines 817-1012) for a run whose
`get_next_proxy` returned node `p`, with pool state threaded through.
Control flow follows the source: a failed email fetch marks the node and
aborts; a non-success signup result marks the node once and aborts (in both
the checkpoint/`need_browser_verification` branch, lines 896-910, and the
generic branch, lines 912-916); an empty poll result marks the node and
aborts; a missing or empty extracted code aborts without touching the pool
(lines 932-934); a failed verify with `need_browser_verification` and a
cookie manager triggers exactly one clear-and-refresh cycle with at most one
verify retry (lines 950-982) before the run marks the node and gives up
(lines 984-988); a verified run performs the output steps, which do not
touch the pool. -/
def register_once (p : String) (inp : RegInputs) (s : PoolState) : RunOutcome :=
  if inp.emailOk = false then
    ⟨mark_proxy_failed s p, 1, 0, 0, 0, false⟩
  else
    let so := signup_account inp.signupResp inp.maxRetries
    if so.success = false then
      if so.needBrowserVerification && inp.hasCookieManager then
        ⟨mark_proxy_failed s p, 1, so.requests, 0, 0, false⟩
      else
        ⟨mark_proxy_failed s p, 1, so.requests, 0, 0, false⟩
    else if inp.gotEmails = false then
      ⟨mark_proxy_failed s p, 1, so.requests, 0, 0, false⟩
    else if inp.extractedCode = none ∨ inp.extractedCode = some "" then
      ⟨s, 0, so.requests, 0, 0, false⟩
    else if inp.firstVerify.success then
      ⟨s, 0, so.requests, 0, 1, true⟩
    else if inp.firstVerify.needBrowserVerification && inp.hasCookieManager then
      if inp.freshCookies then
        if inp.secondVerify.success then
          ⟨s, 0, so.requests, 1, 2, true⟩
        else
          ⟨mark_proxy_failed s p, 1, so.requests, 1, 2, false⟩
      else
        ⟨mark_proxy_failed s p, 1, so.requests, 1, 1, false⟩
    else
      ⟨mark_proxy_failed s p, 1, so.requests, 0, 1, false⟩

/-! ## The pool predicates the claims are about -/

/-- The claimed pool invariant (spec §4.1 / §8): a node's failure count has
reached `max_failures` exactly when the node is not active. -/
def poolInv (s : PoolState) : Prop :=
  ∀ p ∈ s.allProxies,
    (s.maxFailures ≤ failureCount s p ↔ p ∉ s.activeProxies)

instance (s : PoolState) : Decidable (poolInv s) := by
  unfold poolInv; infer_instance

/-- The claimed derivability equation (spec §3): the active list is exactly
the loaded nodes minus the keys of `failed_proxies`. -/
def activeEqDerived (s : PoolState) : Prop :=
  ∀ q, q ∈ s.activeProxies ↔ (q ∈ s.allProxies ∧ aget s.failedProxies q = none)

/-- The half of the derivability equation the operations do preserve: every
loaded node without a failure record is active. -/
def derivedSuper (s : PoolState) : Prop :=
  ∀ q ∈ s.allProxies, aget s.failedProxies q = none → q ∈ s.activeProxies

instance (s : PoolState) : Decidable (derivedSuper s) := by
  unfold derivedSuper; infer_instance

/-- Key list of the `failed_proxies` dict. -/
def failedKeys (s : PoolState) : List String :=
  s.failedProxies.map Prod.fst

/-- Dict well-formedness: keys are unique (every dict Python builds). -/
def keysNodup (s : PoolState) : Prop :=
  (failedKeys s).Nodup

instance (s : PoolState) : Decidable (keysNodup s) := by
  unfold keysNodup; infer_instance

/-- Equality of the active/failed partition restricted to the loaded nodes,
comparing two pool states sweep by sweep. -/
def samePartitionOn (all : List String) (s t : PoolState) : Prop :=
  ∀ p ∈ all,
    ((p ∈ s.activeProxies ↔ p ∈ t.activeProxies) ∧
      ((aget s.failedProxies p).isSome ↔ (aget t.failedProxies p).isSome))

instance (all : List String) (s t : PoolState) :
    Decidable (samePartitionOn all s t) := by
  unfold samePartitionOn; infer_instance


/-! ## Association-list lemmas -/

theorem aget_cons {β : Type} (q : String) (w : β) (t : List (String × β))
    (p : String) : aget ((q, w) :: t) p = if q = p then some w else aget t p :=
  rfl

theorem aset_cons_self {β : Type} (q : String) (w v : β)
    (t : List (String × β)) : aset ((q, w) :: t) q v = (q, v) :: t := by
  simp [aset]

theorem aset_cons_ne {β : Type} (q p : String) (w v : β)
    (t : List (String × β)) (h : ¬ q = p) :
    aset ((q, w) :: t) p v = (q, w) :: aset t p v := by
  simp [aset, h]

theorem aerase_cons_self {β : Type} (q : String) (w : β)
    (t : List (String × β)) : aerase ((q, w) :: t) q = t := by
  simp [aerase]

theorem aerase_cons_ne {β : Type} (q p : String) (w : β)
    (t : List (String × β)) (h : ¬ q = p) :
    aerase ((q, w) :: t) p = (q, w) :: aerase t p := by
  simp [aerase, h]

theorem aget_aset_self {β : Type} (l : List (String × β)) (p : String) (v : β) :
    aget (aset l p v) p = some v := by
  induction l with
  | nil => simp [aget, aset]
  | cons hd t ih =>
    obtain ⟨q, w⟩ := hd
    by_cases hq : q = p
    · subst hq; rw [aset_cons_self, aget_cons, if_pos rfl]
    · rw [aset_cons_ne _ _ _ _ _ hq, aget_cons, if_neg hq, ih]

theorem aget_aset_ne {β : Type} (l : List (String × β)) (p q : String) (v : β)
    (hne : q ≠ p) : aget (aset l p v) q = aget l q := by
  have hpq : ¬ p = q := fun h => hne h.symm
  induction l with
  | nil => simp [aget, aset, hpq]
  | cons hd t ih =>
    obtain ⟨r, w⟩ := hd
    by_cases hr : r = p
    · subst hr
      rw [aset_cons_self, aget_cons, aget_cons, if_neg hpq, if_neg hpq]
    · rw [aset_cons_ne _ _ _ _ _ hr, aget_cons, aget_cons]
      by_cases hrq : r = q
      · rw [if_pos hrq, if_pos hrq]
      · rw [if_neg hrq, if_neg hrq, ih]

theorem aget_aerase_ne {β : Type} (l : List (String × β)) (p q : String)
    (hne : q ≠ p) : aget (aerase l p) q = aget l q := by
  have hpq : ¬ p = q := fun h => hne h.symm
  induction l with
  | nil => simp [aerase]
  | cons hd t ih =>
    obtain ⟨r, w⟩ := hd
    by_cases hr : r = p
    · subst hr
      rw [aerase_cons_self, aget_cons, if_neg hpq]
    · rw [aerase_cons_ne _ _ _ _ hr, aget_cons, aget_cons]
      by_cases hrq : r = q
      · rw [if_pos hrq, if_pos hrq]
      · rw [if_neg hrq, if_neg hrq, ih]

theorem aget_isSome_iff_mem_keys {β : Type} (l : List (String × β))
    (p : String) : (aget l p).isSome ↔ p ∈ l.map Prod.fst := by
  induction l with
  | nil => simp [aget]
  | cons hd t ih =>
    obtain ⟨q, w⟩ := hd
    by_cases hq : q = p
    · subst hq
      rw [aget_cons, if_pos rfl]
      simp
    · rw [aget_cons, if_neg hq]
      simp only [List.map_cons, List.mem_cons]
      rw [ih]
      constructor
      · exact Or.inr
      · rintro (h | h)
        · exact absurd h.symm hq
        · exact h

theorem aget_aerase_self {β : Type} (l : List (String × β)) (p : String)
    (hnd : (l.map Prod.fst).Nodup) : aget (aerase l p) p = none := by
  induction l with
  | nil => simp [aerase, aget]
  | cons hd t ih =>
    obtain ⟨q, w⟩ := hd
    simp only [List.map_cons, List.nodup_cons] at hnd
    by_cases hq : q = p
    · subst hq
      rw [aerase_cons_self]
      cases hget : aget t q with
      | none => rfl
      | some v =>
        exact absurd ((aget_isSome_iff_mem_keys t q).mp (by simp [hget])) hnd.1
    · rw [aerase_cons_ne _ _ _ _ hq, aget_cons, if_neg hq, ih hnd.2]

theorem aerase_keys_sublist {β : Type} (l : List (String × β)) (p : String) :
    ((aerase l p).map Prod.fst).Sublist (l.map Prod.fst) := by
  induction l with
  | nil => simp [aerase]
  | cons hd t ih =>
    obtain ⟨q, w⟩ := hd
    by_cases hq : q = p
    · subst hq
      rw [aerase_cons_self]
      exact (List.sublist_cons_self q (t.map Prod.fst))
    · rw [aerase_cons_ne _ _ _ _ hq]
      simpa using ih.cons₂ q

theorem aerase_keys_nodup {β : Type} (l : List (String × β)) (p : String)
    (hnd : (l.map Prod.fst).Nodup) : ((aerase l p).map Prod.fst).Nodup :=
  (aerase_keys_sublist l p).nodup hnd

theorem aset_keys_mem {β : Type} (l : List (String × β)) (p q : String) (v : β)
    (hq : q ∈ (aset l p v).map Prod.fst) : q ∈ l.map Prod.fst ∨ q = p := by
  induction l with
  | nil => simpa [aset] using hq
  | cons hd t ih =>
    obtain ⟨r, w⟩ := hd
    by_cases hr : r = p
    · subst hr
      rw [aset_cons_self] at hq
      simp only [List.map_cons, List.mem_cons] at hq ⊢
      rcases hq with h | h
      · exact Or.inr h
      · exact Or.inl (Or.inr h)
    · rw [aset_cons_ne _ _ _ _ _ hr] at hq
      simp only [List.map_cons, List.mem_cons] at hq ⊢
      rcases hq with h | h
      · exact Or.inl (Or.inl h)
      · rcases ih h with h2 | h2
        · exact Or.inl (Or.inr h2)
        · exact Or.inr h2

theorem aset_keys_nodup {β : Type} (l : List (String × β)) (p : String) (v : β)
    (hnd : (l.map Prod.fst).Nodup) : ((aset l p v).map Prod.fst).Nodup := by
  induction l with
  | nil => simp [aset]
  | cons hd t ih =>
    obtain ⟨r, w⟩ := hd
    simp only [List.map_cons, List.nodup_cons] at hnd
    by_cases hr : r = p
    · subst hr
      rw [aset_cons_self]
      simpa using hnd
    · rw [aset_cons_ne _ _ _ _ _ hr]
      simp only [List.map_cons, List.nodup_cons]
      refine ⟨fun hmem => ?_, ih hnd.2⟩
      rcases aset_keys_mem t p r v hmem with h | h
      · exact hnd.1 h
      · exact hr h

/-! ## Pool operation lemmas -/

theorem mark_failedProxies (s : PoolState) (p : String) :
    (mark_proxy_failed s p).failedProxies =
      aset s.failedProxies p (failureCount s p + 1) := by
  simp only [mark_proxy_failed, failureCount]
  split <;> rfl

theorem mark_activeProxies (s : PoolState) (p : String) :
    (mark_proxy_failed s p).activeProxies =
      if s.maxFailures ≤ failureCount s p + 1 ∧ p ∈ s.activeProxies then
        s.activeProxies.erase p
      else s.activeProxies := by
  simp only [mark_proxy_failed, failureCount]
  split <;> simp_all

theorem mark_allProxies (s : PoolState) (p : String) :
    (mark_proxy_failed s p).allProxies = s.allProxies := by
  simp only [mark_proxy_failed]
  split <;> rfl

theorem mark_maxFailures (s : PoolState) (p : String) :
    (mark_proxy_failed s p).maxFailures = s.maxFailures := by
  simp only [mark_proxy_failed]
  split <;> rfl

theorem mark_fileWrites_le (s : PoolState) (p : String) :
    s.fileWrites ≤ (mark_proxy_failed s p).fileWrites := by
  simp only [mark_proxy_failed]
  split <;> simp

theorem hcaStep_allProxies (h : String → Bool) (s : PoolState) (p : String) :
    (hcaStep h s p).allProxies = s.allProxies := by
  unfold hcaStep
  split
  · exact mark_allProxies s p
  · split <;> rfl

theorem hcaStep_maxFailures (h : String → Bool) (s : PoolState) (p : String) :
    (hcaStep h s p).maxFailures = s.maxFailures := by
  unfold hcaStep
  split
  · exact mark_maxFailures s p
  · split <;> rfl

theorem hcaStep_fileWrites_le (h : String → Bool) (s : PoolState) (p : String) :
    s.fileWrites ≤ (hcaStep h s p).fileWrites := by
  unfold hcaStep
  split
  · exact mark_fileWrites_le s p
  · split <;> simp

theorem hca_foldl_preserve {P : PoolState → Prop} (h : String → Bool)
    (hstep : ∀ t p, P t → P (hcaStep h t p)) :
    ∀ (l : List String) (t : PoolState), P t → P (l.foldl (hcaStep h) t) := by
  intro l
  induction l with
  | nil => intro t ht; exact ht
  | cons a l ih =>
    intro t ht
    exact ih _ (hstep t a ht)

theorem save_state_activeProxies (s : PoolState) :
    (save_state s).activeProxies = s.activeProxies := rfl

theorem save_state_failedProxies (s : PoolState) :
    (save_state s).failedProxies = s.failedProxies := rfl

theorem save_state_allProxies (s : PoolState) :
    (save_state s).allProxies = s.allProxies := rfl

theorem save_state_maxFailures (s : PoolState) :
    (save_state s).maxFailures = s.maxFailures := rfl

/-! ## Preservation of the C1 invariant -/

theorem poolInv_mark (s : PoolState) (p : String)
    (hna : s.activeProxies.Nodup) (hinv : poolInv s) :
    poolInv (mark_proxy_failed s p) := by
  intro q hq
  rw [mark_allProxies] at hq
  have hq' := hinv q hq
  have hfc : failureCount (mark_proxy_failed s p) q =
      (aget (aset s.failedProxies p (failureCount s p + 1)) q).getD 0 :=
    congrArg (fun l => (aget l q).getD 0) (mark_failedProxies s p)
  rw [mark_maxFailures, hfc, mark_activeProxies]
  by_cases hqp : q = p
  · subst hqp
    rw [aget_aset_self]
    by_cases hcond : s.maxFailures ≤ failureCount s q + 1 ∧ q ∈ s.activeProxies
    · rw [if_pos hcond]
      simp only [Option.getD_some]
      constructor
      · intro _
        intro hmem
        exact ((hna.mem_erase_iff).mp hmem).1 rfl
      · intro _
        exact hcond.1
    · rw [if_neg hcond]
      simp only [Option.getD_some]
      constructor
      · intro hle hmem
        exact hcond ⟨hle, hmem⟩
      · intro hmem
        by_contra hlt
        have h1 : ¬ s.maxFailures ≤ failureCount s q := by omega
        have h2 : q ∈ s.activeProxies := by
          by_contra hq2
          exact h1 (hq'.mpr hq2)
        exact hmem h2
  · rw [aget_aset_ne _ _ _ _ hqp]
    have hmem : (q ∈ (if s.maxFailures ≤ failureCount s p + 1 ∧
        p ∈ s.activeProxies then s.activeProxies.erase p
        else s.activeProxies)) ↔ q ∈ s.activeProxies := by
      split
      · exact List.mem_erase_of_ne hqp
      · exact Iff.rfl
    rw [not_iff_not.mpr hmem]
    exact hq'

theorem active_nodup_mark (s : PoolState) (p : String)
    (hna : s.activeProxies.Nodup) :
    (mark_proxy_failed s p).activeProxies.Nodup := by
  rw [mark_activeProxies]
  split
  · exact hna.erase p
  · exact hna

theorem keys_nodup_mark (s : PoolState) (p : String)
    (hk : keysNodup s) : keysNodup (mark_proxy_failed s p) := by
  unfold keysNodup failedKeys at hk ⊢
  rw [mark_failedProxies]
  exact aset_keys_nodup _ _ _ hk

theorem poolInv_hcaStep (h : String → Bool) (s : PoolState) (p : String)
    (hm : 1 ≤ s.maxFailures) (hna : s.activeProxies.Nodup) (hk : keysNodup s)
    (hinv : poolInv s) : poolInv (hcaStep h s p) := by
  by_cases h1 : p ∈ s.activeProxies ∧ h p = false
  · simp only [hcaStep]
    rw [if_pos h1]
    exact poolInv_mark s p hna hinv
  · by_cases h2 : (aget s.failedProxies p).isSome ∧ h p = true
    · simp only [hcaStep]
      rw [if_neg h1, if_pos h2]
      intro q hq
      show s.maxFailures ≤ (aget (aerase s.failedProxies p) q).getD 0 ↔
        q ∉ (if p ∈ s.activeProxies then s.activeProxies
              else s.activeProxies ++ [p])
      by_cases hqp : q = p
      · subst hqp
        rw [aget_aerase_self _ _ hk]
        have hpmem : q ∈ (if q ∈ s.activeProxies then s.activeProxies
            else s.activeProxies ++ [q]) := by
          split
          · assumption
          · exact List.mem_append_right _ (List.mem_singleton_self q)
        exact iff_of_false (by simp; omega) (fun hn => hn hpmem)
      · rw [aget_aerase_ne _ _ _ hqp]
        have hmem : (q ∈ (if p ∈ s.activeProxies then s.activeProxies
            else s.activeProxies ++ [p])) ↔ q ∈ s.activeProxies := by
          split
          · exact Iff.rfl
          · simp [List.mem_append, hqp]
        rw [not_iff_not.mpr hmem]
        exact hinv q hq
    · simp only [hcaStep]
      rw [if_neg h1, if_neg h2]
      exact hinv

theorem active_nodup_hcaStep (h : String → Bool) (s : PoolState) (p : String)
    (hna : s.activeProxies.Nodup) : (hcaStep h s p).activeProxies.Nodup := by
  by_cases h1 : p ∈ s.activeProxies ∧ h p = false
  · simp only [hcaStep]
    rw [if_pos h1]
    exact active_nodup_mark s p hna
  · by_cases h2 : (aget s.failedProxies p).isSome ∧ h p = true
    · simp only [hcaStep]
      rw [if_neg h1, if_pos h2]
      show (if p ∈ s.activeProxies then s.activeProxies
            else s.activeProxies ++ [p]).Nodup
      split
      · exact hna
      · rw [List.nodup_append]
        refine ⟨hna, List.nodup_singleton p, ?_⟩
        intro a ha hb
        rw [List.mem_singleton] at hb
        subst hb
        exact absurd ha (by assumption)
    · simp only [hcaStep]
      rw [if_neg h1, if_neg h2]
      exact hna

theorem keys_nodup_hcaStep (h : String → Bool) (s : PoolState) (p : String)
    (hk : keysNodup s) : keysNodup (hcaStep h s p) := by
  by_cases h1 : p ∈ s.activeProxies ∧ h p = false
  · simp only [hcaStep]
    rw [if_pos h1]
    exact keys_nodup_mark s p hk
  · by_cases h2 : (aget s.failedProxies p).isSome ∧ h p = true
    · simp only [hcaStep]
      rw [if_neg h1, if_pos h2]
      exact aerase_keys_nodup _ _ hk
    · simp only [hcaStep]
      rw [if_neg h1, if_neg h2]
      exact hk

theorem poolInv_health (h : String → Bool) (s : PoolState)
    (hm : 1 ≤ s.maxFailures) (hna : s.activeProxies.Nodup) (hk : keysNodup s)
    (hinv : poolInv s) : poolInv (health_check_all h s) := by
  simp only [health_check_all]
  split
  · exact hinv
  · have res := hca_foldl_preserve
      (P := fun t => t.maxFailures = s.maxFailures ∧ t.activeProxies.Nodup ∧
        keysNodup t ∧ poolInv t) h
      (fun t p hp => by
        obtain ⟨hmf, hna', hk', hinv'⟩ := hp
        refine ⟨?_, ?_, ?_, ?_⟩
        · rw [hcaStep_maxFailures]; exact hmf
        · exact active_nodup_hcaStep h t p hna'
        · exact keys_nodup_hcaStep h t p hk'
        · exact poolInv_hcaStep h t p (by rw [hmf]; exact hm) hna' hk' hinv')
      (s.activeProxies ++ s.failedProxies.map Prod.fst) s ⟨rfl, hna, hk, hinv⟩
    exact res.2.2.2

/-! ## Health sweep stabilization lemmas -/

theorem hcaStep_failed_mark (h : String → Bool) (t : PoolState) (a : String)
    (h1 : a ∈ t.activeProxies ∧ h a = false) :
    (hcaStep h t a).failedProxies =
      aset t.failedProxies a (failureCount t a + 1) := by
  simp only [hcaStep]
  rw [if_pos h1]
  exact mark_failedProxies t a

theorem hcaStep_failed_recover (h : String → Bool) (t : PoolState) (a : String)
    (h1 : ¬(a ∈ t.activeProxies ∧ h a = false))
    (h2 : (aget t.failedProxies a).isSome ∧ h a = true) :
    (hcaStep h t a).failedProxies = aerase t.failedProxies a := by
  simp only [hcaStep]
  rw [if_neg h1, if_pos h2]

theorem hcaStep_id (h : String → Bool) (t : PoolState) (p : String)
    (hact : p ∈ t.activeProxies → h p = true)
    (hfail : (aget t.failedProxies p).isSome → h p = false) :
    hcaStep h t p = t := by
  have h1 : ¬(p ∈ t.activeProxies ∧ h p = false) := by
    rintro ⟨hm, hf⟩
    rw [hact hm] at hf
    exact absurd hf (by simp)
  have h2 : ¬((aget t.failedProxies p).isSome ∧ h p = true) := by
    rintro ⟨hs, ht'⟩
    rw [hfail hs] at ht'
    exact absurd ht' (by simp)
  simp only [hcaStep]
  rw [if_neg h1, if_neg h2]

theorem foldl_hcaStep_id (h : String → Bool) :
    ∀ (l : List String) (t : PoolState),
      (∀ p ∈ l, hcaStep h t p = t) → l.foldl (hcaStep h) t = t := by
  intro l
  induction l with
  | nil => intro t _; rfl
  | cons a l ih =>
    intro t hid
    rw [List.foldl_cons, hid a (List.mem_cons_self a l)]
    exact ih t (fun p hp => hid p (List.mem_cons_of_mem a hp))

theorem fold_keys_unhealthy (h : String → Bool) :
    ∀ (l : List String) (t : PoolState),
      keysNodup t →
      (∀ p, (aget t.failedProxies p).isSome → h p = false ∨ p ∈ l) →
      ∀ p, (aget (l.foldl (hcaStep h) t).failedProxies p).isSome →
        h p = false := by
  intro l
  induction l with
  | nil =>
    intro t _ hcov p hp
    rcases hcov p hp with hf | hmem
    · exact hf
    · exact absurd hmem (List.not_mem_nil p)
  | cons a l ih =>
    intro t hk hcov p hp
    rw [List.foldl_cons] at hp
    refine ih (hcaStep h t a) (keys_nodup_hcaStep h t a hk) ?_ p hp
    intro q hq
    by_cases h1 : a ∈ t.activeProxies ∧ h a = false
    · rw [hcaStep_failed_mark h t a h1] at hq
      by_cases hqa : q = a
      · subst hqa
        exact Or.inl h1.2
      · rw [aget_aset_ne _ _ _ _ hqa] at hq
        rcases hcov q hq with hf | hm
        · exact Or.inl hf
        · rcases List.mem_cons.mp hm with he | hl
          · exact absurd he hqa
          · exact Or.inr hl
    · by_cases h2 : (aget t.failedProxies a).isSome ∧ h a = true
      · rw [hcaStep_failed_recover h t a h1 h2] at hq
        by_cases hqa : q = a
        · subst hqa
          rw [aget_aerase_self _ _ hk] at hq
          exact absurd hq (by simp)
        · rw [aget_aerase_ne _ _ _ hqa] at hq
          rcases hcov q hq with hf | hm
          · exact Or.inl hf
          · rcases List.mem_cons.mp hm with he | hl
            · exact absurd he hqa
            · exact Or.inr hl
      · have hstep : hcaStep h t a = t := by
          simp only [hcaStep]
          rw [if_neg h1, if_neg h2]
        rw [hstep] at hq
        by_cases hqa : q = a
        · subst hqa
          cases hhq : h q with
          | false => exact Or.inl rfl
          | true => exact absurd ⟨hq, hhq⟩ h2
        · rcases hcov q hq with hf | hm
          · exact Or.inl hf
          · rcases List.mem_cons.mp hm with he | hl
            · exact absurd he hqa
            · exact Or.inr hl

theorem health_keys_unhealthy (h : String → Bool) (s : PoolState)
    (hk : keysNodup s) :
    ∀ p, (aget (health_check_all h s).failedProxies p).isSome → h p = false := by
  simp only [health_check_all]
  split
  · intro p hp
    have hemp : s.failedProxies = [] := by
      have := List.append_eq_nil.mp (by assumption)
      exact List.map_eq_nil_iff.mp this.2
    rw [hemp] at hp
    exact absurd hp (by simp [aget])
  · intro p hp
    rw [save_state_failedProxies] at hp
    refine fold_keys_unhealthy h _ s hk ?_ p hp
    intro q hq
    exact Or.inr (List.mem_append_right _
      ((aget_isSome_iff_mem_keys _ q).mp hq))

/-! ## Derivability lemmas (C3) -/

theorem load_state_derived (allP : List String) (maxF : Nat)
    (file : Option (List (String × Nat))) :
    activeEqDerived (load_state allP maxF file) := by
  intro q
  cases file with
  | none => simp [load_state, aget]
  | some failed =>
    simp [load_state, List.mem_filter, Option.isNone_iff_eq_none]

theorem derivedSuper_mark (s : PoolState) (p : String)
    (hs : derivedSuper s) : derivedSuper (mark_proxy_failed s p) := by
  intro q hq hnone
  rw [mark_allProxies] at hq
  rw [mark_failedProxies] at hnone
  have hqp : q ≠ p := by
    intro he
    subst he
    rw [aget_aset_self] at hnone
    exact absurd hnone (by simp)
  rw [aget_aset_ne _ _ _ _ hqp] at hnone
  have hact := hs q hq hnone
  rw [mark_activeProxies]
  split
  · exact (List.mem_erase_of_ne hqp).mpr hact
  · exact hact

theorem derivedSuper_hcaStep (h : String → Bool) (s : PoolState) (p : String)
    (hs : derivedSuper s) : derivedSuper (hcaStep h s p) := by
  by_cases h1 : p ∈ s.activeProxies ∧ h p = false
  · have he : hcaStep h s p = mark_proxy_failed s p := by
      simp only [hcaStep]
      rw [if_pos h1]
    rw [he]
    exact derivedSuper_mark s p hs
  · by_cases h2 : (aget s.failedProxies p).isSome ∧ h p = true
    · simp only [hcaStep]
      rw [if_neg h1, if_pos h2]
      intro q hq hnone
      show q ∈ (if p ∈ s.activeProxies then s.activeProxies
        else s.activeProxies ++ [p])
      by_cases hqp : q = p
      · subst hqp
        split
        · assumption
        · exact List.mem_append_right _ (List.mem_singleton_self q)
      · have hnone2 : aget (aerase s.failedProxies p) q = none := hnone
        rw [aget_aerase_ne _ _ _ hqp] at hnone2
        have hact := hs q hq hnone2
        split
        · exact hact
        · exact List.mem_append_left _ hact
    · have he : hcaStep h s p = s := by
        simp only [hcaStep]
        rw [if_neg h1, if_neg h2]
      rw [he]
      exact hs

theorem derivedSuper_health (h : String → Bool) (s : PoolState)
    (hs : derivedSuper s) : derivedSuper (health_check_all h s) := by
  simp only [health_check_all]
  split
  · exact hs
  · exact hca_foldl_preserve (P := derivedSuper) h
      (fun t p hp => derivedSuper_hcaStep h t p hp) _ s hs

/-! ## Signup loop lemma (C2) -/

theorem signupLoop_checkpoint (resp : Nat → SignupResp) :
    ∀ (k attempt remaining : Nat), k < remaining →
      (∀ i, i < k → isRetryFailure (resp (attempt + i)) = true) →
      isCheckpointResp (resp (attempt + k)) = true →
      signupLoop resp attempt remaining =
        ⟨false, true, attempt + k + 1⟩ := by
  intro k
  induction k with
  | zero =>
    intro attempt remaining hk _ hcp
    obtain ⟨r, hr⟩ : ∃ r, remaining = r + 1 := ⟨remaining - 1, by omega⟩
    subst hr
    rw [Nat.add_zero] at hcp
    cases hresp : resp attempt with
    | exn =>
      rw [hresp] at hcp
      exact absurd hcp (by simp [isCheckpointResp])
    | ok cp st m =>
      rw [hresp] at hcp
      have hcp' : cp = true := by simpa [isCheckpointResp] using hcp
      subst hcp'
      simp [signupLoop, hresp]
  | succ k ih =>
    intro attempt remaining hk hpre hcp
    obtain ⟨r, hr⟩ : ∃ r, remaining = r + 1 := ⟨remaining - 1, by omega⟩
    subst hr
    have h0 := hpre 0 (by omega)
    rw [Nat.add_zero] at h0
    have hrest : ∀ i, i < k → isRetryFailure (resp (attempt + 1 + i)) = true := by
      intro i hi
      have hp := hpre (i + 1) (by omega)
      rwa [show attempt + (i + 1) = attempt + 1 + i by omega] at hp
    have hcp' : isCheckpointResp (resp (attempt + 1 + k)) = true := by
      rwa [show attempt + (k + 1) = attempt + 1 + k by omega] at hcp
    have hres := ih (attempt + 1) r (by omega) hrest hcp'
    rw [show attempt + 1 + k + 1 = attempt + (k + 1) + 1 by omega] at hres
    cases hresp : resp attempt with
    | exn =>
      simp only [signupLoop, hresp]
      exact hres
    | ok cp st m =>
      rw [hresp] at h0
      simp only [isRetryFailure, Bool.and_eq_true, Bool.not_eq_true'] at h0
      simp only [signupLoop, hresp, h0.1, Bool.false_eq_true, if_false,
        h0.2, if_false]
      exact hres

/-! ## Claim theorems -/

/-- C1, counterexample: the biconditional `failureCount ≥ maxFailures ↔ node
not active` does not hold after every `mark_proxy_failed` call.  The pool
itself produces the offending state: a sweep in which node `A` fails one
probe (with `max_failures = 3`) leaves `A` active with count 1 but persists
`{A: 1}`; reloading that file excludes `A` from the active list, and the
next `mark_proxy_failed "A"` then ends with count `2 < 3` while `A` is not
active — the invariant holds after the sweep but is false after that
`mark_proxy_failed` call. -/
theorem c1_counterexample :
    poolInv (health_check_all (fun p => p == "B")
      (load_state ["A", "B"] 3 none)) ∧
    ¬ poolInv (mark_proxy_failed
      (load_state ["A", "B"] 3
        (health_check_all (fun p => p == "B")
          (load_state ["A", "B"] 3 none)).stateFile) "A") := by
  decide

/-- C1, amended: the biconditional invariant is an inductive invariant of
the in-memory operations — whenever it holds (and the active list and the
`failed_proxies` keys are duplicate-free, with `max_failures ≥ 1`), it still
holds after any `mark_proxy_failed` and after any `health_check_all`.  What
fails is only its establishment across a restart: `load_state` applied to a
state file holding sub-threshold counts (which `health_check_all` writes)
yields a state violating it, and the operations then preserve the
violation. -/
theorem c1_invariant_preserved (s : PoolState) (p : String)
    (h : String → Bool) (hm : 1 ≤ s.maxFailures)
    (hna : s.activeProxies.Nodup) (hk : keysNodup s) (hinv : poolInv s) :
    poolInv (mark_proxy_failed s p) ∧ poolInv (health_check_all h s) :=
  ⟨poolInv_mark s p hna hinv, poolInv_health h s hm hna hk hinv⟩

/-- C1, witness for the amended theorem at a concrete pool. -/
theorem c1_invariant_preserved_witness :
    poolInv (mark_proxy_failed (load_state ["A", "B"] 3 none) "A") ∧
    poolInv (health_check_all (fun _ => true)
      (load_state ["A", "B"] 3 none)) :=
  c1_invariant_preserved (load_state ["A", "B"] 3 none) "A" (fun _ => true)
    (by decide) (by decide) (by decide) (by decide)

/-- C3, counterexample: after one `mark_proxy_failed` on a fresh pool with
`max_failures = 3`, node `A` has a `failed_proxies` entry (count 1) yet is
still in the active list, so `activeNodes = allNodes − keys(failedNodes)`
fails. -/
theorem c3_counterexample :
    ("A" ∈ (mark_proxy_failed (load_state ["A", "B"] 3 none)
        "A").activeProxies ∧
      (aget (mark_proxy_failed (load_state ["A", "B"] 3 none)
        "A").failedProxies "A").isSome) ∧
    ¬ activeEqDerived (mark_proxy_failed (load_state ["A", "B"] 3 none) "A") := by
  refine ⟨by decide, ?_⟩
  intro hEq
  have h1 := (hEq "A").mp (by decide)
  exact absurd h1.2 (by decide)

/-- C3, amended: the equation `activeNodes = allNodes − keys(failedNodes)`
holds after pool initialization (`load_state`, for any file content,
including a missing file); after the mutating operations only the inclusion
`allNodes − keys(failedNodes) ⊆ activeNodes` is maintained, because
`mark_proxy_failed` leaves a sub-threshold node in the active list while its
key is already in `failed_proxies`. -/
theorem c3_amended_derivability (allP : List String) (maxF : Nat)
    (file : Option (List (String × Nat))) (s : PoolState) (p : String)
    (h : String → Bool) (hs : derivedSuper s) :
    activeEqDerived (load_state allP maxF file) ∧
    derivedSuper (mark_proxy_failed s p) ∧
    derivedSuper (health_check_all h s) :=
  ⟨load_state_derived allP maxF file, derivedSuper_mark s p hs,
    derivedSuper_health h s hs⟩

/-- C3, witness for the amended theorem at a concrete pool. -/
theorem c3_amended_derivability_witness :
    activeEqDerived (load_state ["A"] 3 none) ∧
    derivedSuper (mark_proxy_failed (load_state ["A", "B"] 3 none) "A") ∧
    derivedSuper (health_check_all (fun _ => true)
      (load_state ["A", "B"] 3 none)) :=
  c3_amended_derivability ["A"] 3 none (load_state ["A", "B"] 3 none) "A"
    (fun _ => true) (by decide)

/-- C5: the claim (selection terminates, returning `none` on an empty active
set and otherwise a node whose switch succeeded, marking failed and
reselecting on each switch failure) states the evident intent, but the code
cannot do it: `get_next_proxy` holds the non-reentrant pool lock and, on a
switch failure, calls `mark_proxy_failed` (and then itself) which begin by
acquiring that same lock, so the call blocks forever.  At the failing input
— one active node whose controller switch fails — the lock-aware embedding
produces no result for any number of steps. -/
theorem c5_get_next_proxy_deadlock (fuel : Nat) :
    get_next_proxy (fun _ => false) (fun l => l.headD "") fuel false
      (load_state ["A"] 3 none) = none := by
  cases fuel with
  | zero => rfl
  | succ n => rfl

/-- C6, counterexample: two successive `health_check_all` sweeps with
identical probe outcomes (node `A` always unhealthy, `max_failures = 3`,
fresh pool) give different partitions: the first sweep leaves `A` active
with count 1; in the second sweep `A` appears in the check list twice (once
from the active list, once from the `failed_proxies` keys), is marked twice,
reaches count 3 and is evicted. -/
theorem c6_counterexample :
    ¬ samePartitionOn ["A"]
      (health_check_all (fun _ => false) (load_state ["A"] 3 none))
      (health_check_all (fun _ => false)
        (health_check_all (fun _ => false) (load_state ["A"] 3 none))) := by
  decide

/-- C6, amended: a second sweep with the same probe outcomes changes nothing
provided every node left active by the first sweep probes healthy (after any
sweep, every remaining `failed_proxies` key probes unhealthy, so under that
proviso every step of the second sweep is a no-op).  In general an unhealthy
node still active after the first sweep keeps being marked — twice per sweep
once it has a failure record — so the partition keeps changing until the
node is evicted. -/
theorem c6_idempotent_when_active_healthy (s : PoolState)
    (h : String → Bool) (hk : keysNodup s)
    (ha : ∀ p ∈ (health_check_all h s).activeProxies, h p = true) :
    (health_check_all h (health_check_all h s)).activeProxies =
      (health_check_all h s).activeProxies ∧
    (health_check_all h (health_check_all h s)).failedProxies =
      (health_check_all h s).failedProxies := by
  have hfailed := health_keys_unhealthy h s hk
  set s1 := health_check_all h s with hs1
  simp only [health_check_all]
  split
  · exact ⟨rfl, rfl⟩
  · rw [foldl_hcaStep_id h _ s1
      (fun p _ => hcaStep_id h s1 p (ha p) (hfailed p))]
    exact ⟨save_state_activeProxies s1, save_state_failedProxies s1⟩

/-- C6, witness for the amended theorem at a concrete pool. -/
theorem c6_idempotent_when_active_healthy_witness :
    (health_check_all (fun _ => true) (health_check_all (fun _ => true)
      (load_state ["A"] 3 none))).activeProxies =
      (health_check_all (fun _ => true)
        (load_state ["A"] 3 none)).activeProxies ∧
    (health_check_all (fun _ => true) (health_check_all (fun _ => true)
      (load_state ["A"] 3 none))).failedProxies =
      (health_check_all (fun _ => true)
        (load_state ["A"] 3 none)).failedProxies :=
  c6_idempotent_when_active_healthy (load_state ["A"] 3 none) (fun _ => true)
    (by decide) (by decide)

/-- C7: `is_expired` is true exactly when the key has no entry or the stored
timestamp is more than `max_age` old; it is false at the moment of a
`set_cookies` (for a non-negative `max_age`), and true at any later instant
more than `max_age` past that `set_cookies`. -/
theorem c7_is_expired_ttl (now later maxAge : Int) (m : CookieStore)
    (p : Option String) (c : List (String × String))
    (h0 : 0 ≤ maxAge) (hl : maxAge < later - now) :
    (is_expired now m p maxAge = true ↔
      (aget m.cookiesCache (cacheKey p) = none ∨
        ∃ e, aget m.cookiesCache (cacheKey p) = some e ∧
          maxAge < now - e.timestamp)) ∧
    is_expired now (set_cookies now m c p) p maxAge = false ∧
    is_expired later (set_cookies now m c p) p maxAge = true := by
  refine ⟨?_, ?_, ?_⟩
  · cases hget : aget m.cookiesCache (cacheKey p) with
    | none => simp [is_expired, hget]
    | some e => simp [is_expired, hget]
  · simp only [is_expired, set_cookies, aget_aset_self]
    simp
    omega
  · simp only [is_expired, set_cookies, aget_aset_self]
    simp
    omega

/-- C7, witness at concrete times (set at 0, checked at 0 and at 2000 with
`max_age = 1800`). -/
theorem c7_is_expired_ttl_witness :
    (is_expired 0 ⟨[]⟩ none 1800 = true ↔
      (aget (⟨[]⟩ : CookieStore).cookiesCache (cacheKey none) = none ∨
        ∃ e, aget (⟨[]⟩ : CookieStore).cookiesCache (cacheKey none) = some e ∧
          1800 < 0 - e.timestamp)) ∧
    is_expired 0 (set_cookies 0 ⟨[]⟩ [("a", "b")] none) none 1800 = false ∧
    is_expired 2000 (set_cookies 0 ⟨[]⟩ [("a", "b")] none) none 1800 = true :=
  c7_is_expired_ttl 0 2000 1800 ⟨[]⟩ none [("a", "b")] (by decide) (by decide)

/-- C8, counterexample: status 201 lies in the spec's accepted "2xx/204
range" but `check_proxy_health` rejects it. -/
theorem c8_counterexample :
    check_proxy_health true (some 201) = false ∧
    specAccepts2xx 201 = true := by
  decide

/-- C8, amended: `check_proxy_health` returns true exactly when the switch
succeeded, the probe produced a response, and that status is 200 or 204 —
not the whole 2xx class. -/
theorem c8_accepts_exactly_200_204 (switchOk : Bool) (probe : Option Nat) :
    check_proxy_health switchOk probe = true ↔
      switchOk = true ∧
        ∃ code, probe = some code ∧ (code = 200 ∨ code = 204) := by
  cases switchOk
  · simp [check_proxy_health]
  · cases probe with
    | none => simp [check_proxy_health]
    | some code => simp [check_proxy_health]

/-- C8, witness: the amended characterization applied at a 204 probe. -/
theorem c8_accepts_exactly_200_204_witness :
    check_proxy_health true (some 204) = true :=
  (c8_accepts_exactly_200_204 true (some 204)).mpr
    ⟨rfl, 204, rfl, Or.inr rfl⟩

/-- C10: `mark_proxy_failed` writes the state file exactly when the
incremented count reaches `max_failures` while the node is still active (so
sub-threshold counts, and counts for nodes already evicted, are not
persisted by it), what it writes is the updated `failed_proxies` map, and a
`health_check_all` sweep with a non-empty check list always persists the
post-sweep map. -/
theorem c10_save_condition (s : PoolState) (p : String) (h : String → Bool)
    (hne : s.activeProxies ++ s.failedProxies.map Prod.fst ≠ []) :
    ((mark_proxy_failed s p).fileWrites ≠ s.fileWrites ↔
      (s.maxFailures ≤ failureCount s p + 1 ∧ p ∈ s.activeProxies)) ∧
    ((mark_proxy_failed s p).fileWrites ≠ s.fileWrites →
      (mark_proxy_failed s p).stateFile =
        some (mark_proxy_failed s p).failedProxies) ∧
    (health_check_all h s).stateFile =
      some (health_check_all h s).failedProxies ∧
    s.fileWrites < (health_check_all h s).fileWrites := by
  refine ⟨?_, ?_, ?_, ?_⟩
  · by_cases hcond : s.maxFailures ≤ (aget s.failedProxies p).getD 0 + 1 ∧
        p ∈ s.activeProxies
    · have hw : (mark_proxy_failed s p).fileWrites = s.fileWrites + 1 := by
        simp only [mark_proxy_failed]
        rw [if_pos hcond]
      rw [hw]
      exact iff_of_true (by omega) hcond
    · have hw : (mark_proxy_failed s p).fileWrites = s.fileWrites := by
        simp only [mark_proxy_failed]
        rw [if_neg hcond]
      rw [hw]
      exact iff_of_false (by omega) hcond
  · intro hw
    by_cases hcond : s.maxFailures ≤ (aget s.failedProxies p).getD 0 + 1 ∧
        p ∈ s.activeProxies
    · simp only [mark_proxy_failed]
      rw [if_pos hcond]
    · have heq : (mark_proxy_failed s p).fileWrites = s.fileWrites := by
        simp only [mark_proxy_failed]
        rw [if_neg hcond]
      exact absurd heq hw
  · simp only [health_check_all]
    split
    · exact absurd (by assumption) hne
    · rfl
  · simp only [health_check_all]
    split
    · exact absurd (by assumption) hne
    · have hmono : s.fileWrites ≤
          ((s.activeProxies ++ s.failedProxies.map Prod.fst).foldl
            (hcaStep h) s).fileWrites :=
        hca_foldl_preserve (P := fun t => s.fileWrites ≤ t.fileWrites) h
          (fun t p2 hp => le_trans hp (hcaStep_fileWrites_le h t p2)) _ s
          (le_refl _)
      have hsv : (save_state ((s.activeProxies ++
          s.failedProxies.map Prod.fst).foldl (hcaStep h) s)).fileWrites =
          ((s.activeProxies ++ s.failedProxies.map Prod.fst).foldl
            (hcaStep h) s).fileWrites + 1 := rfl
      omega

/-- C10, witness at a concrete pool. -/
theorem c10_save_condition_witness :
    ((mark_proxy_failed (load_state ["A"] 3 none) "A").fileWrites ≠
        (load_state ["A"] 3 none).fileWrites ↔
      ((load_state ["A"] 3 none).maxFailures ≤
          failureCount (load_state ["A"] 3 none) "A" + 1 ∧
        "A" ∈ (load_state ["A"] 3 none).activeProxies)) ∧
    ((mark_proxy_failed (load_state ["A"] 3 none) "A").fileWrites ≠
        (load_state ["A"] 3 none).fileWrites →
      (mark_proxy_failed (load_state ["A"] 3 none) "A").stateFile =
        some (mark_proxy_failed (load_state ["A"] 3 none)
          "A").failedProxies) ∧
    (health_check_all (fun _ => true) (load_state ["A"] 3 none)).stateFile =
      some (health_check_all (fun _ => true)
        (load_state ["A"] 3 none)).failedProxies ∧
    (load_state ["A"] 3 none).fileWrites <
      (health_check_all (fun _ => true)
        (load_state ["A"] 3 none)).fileWrites :=
  c10_save_condition (load_state ["A"] 3 none) "A" (fun _ => true) (by decide)

/-- C2: if attempt `k` of the signup loop (after `k` ordinary retryable
failures) receives a checkpoint-flagged response, with `k` within the retry
budget, the whole run issues exactly `k + 1` signup requests (zero retries
after the checkpoint, so the budget of `maxRetries` is not exhausted),
returns failure, reports the node failed exactly once
(`markFailedCalls = 1`, the pool receiving exactly one `mark_proxy_failed`
for the node), and performs no cookie refresh or verify call. -/
theorem c2_checkpoint_short_circuit (s : PoolState) (node : String)
    (inp : RegInputs) (k : Nat)
    (hemail : inp.emailOk = true)
    (hk : k < inp.maxRetries)
    (hpre : ∀ i, i < k → isRetryFailure (inp.signupResp i) = true)
    (hcp : isCheckpointResp (inp.signupResp k) = true) :
    register_once node inp s =
      ⟨mark_proxy_failed s node, 1, k + 1, 0, 0, false⟩ ∧
    k + 1 ≤ inp.maxRetries := by
  have hout : signup_account inp.signupResp inp.maxRetries =
      ⟨false, true, k + 1⟩ := by
    unfold signup_account
    have hmain := signupLoop_checkpoint inp.signupResp k 0 inp.maxRetries hk
      (fun i hi => by simpa using hpre i hi) (by simpa using hcp)
    simpa using hmain
  have h1 : ¬ (inp.emailOk = false) := by rw [hemail]; simp
  refine ⟨?_, by omega⟩
  simp only [register_once]
  rw [if_neg h1, hout]
  rw [if_pos rfl]
  split <;> rfl

/-- C2, witness: a run whose first signup attempt raises an exception and
whose second receives a checkpoint response, on a fresh one-node pool. -/
theorem c2_checkpoint_short_circuit_witness :
    register_once "A"
      ⟨true, 5, (fun i => if i = 0 then .exn else .ok true 429 false), true,
        true, some "123456", ⟨false, false⟩, true, ⟨false, false⟩⟩
      (load_state ["A"] 3 none) =
      ⟨mark_proxy_failed (load_state ["A"] 3 none) "A", 1, 2, 0, 0, false⟩ ∧
    2 ≤ 5 :=
  c2_checkpoint_short_circuit (load_state ["A"] 3 none) "A"
    ⟨true, 5, (fun i => if i = 0 then .exn else .ok true 429 false), true,
      true, some "123456", ⟨false, false⟩, true, ⟨false, false⟩⟩ 1
    rfl (by decide) (by decide) (by decide)

/-- C4: when the first `verify_email` signals a checkpoint
(`need_browser_verification`) and a cookie manager is present, the run
performs exactly one recovery cycle — one clear-and-refresh of the node's
cached cookies and exactly one verify retry — and if the retried verify
fails again (a second consecutive checkpoint included), the run gives up
with a single `mark_proxy_failed`, with no second refresh
(`cookieRefreshes = 1`, `verifyCalls = 2`); moreover every possible
`register_once` run performs at most one refresh. -/
theorem c4_single_recovery_cycle (s : PoolState) (node : String)
    (inp : RegInputs)
    (hemail : inp.emailOk = true)
    (hsign : (signup_account inp.signupResp inp.maxRetries).success = true)
    (hmail : inp.gotEmails = true)
    (hc1 : ¬ (inp.extractedCode = none ∨ inp.extractedCode = some ""))
    (hv1 : inp.firstVerify = ⟨false, true⟩)
    (hcm : inp.hasCookieManager = true)
    (hfresh : inp.freshCookies = true)
    (hv2 : inp.secondVerify.success = false) :
    (register_once node inp s).cookieRefreshes = 1 ∧
    (register_once node inp s).verifyCalls = 2 ∧
    (register_once node inp s).success = false ∧
    (register_once node inp s).markFailedCalls = 1 ∧
    (∀ s2 n2 i2, (register_once n2 i2 s2).cookieRefreshes ≤ 1) := by
  have h1 : ¬ (inp.emailOk = false) := by rw [hemail]; simp
  have h2 : ¬ ((signup_account inp.signupResp inp.maxRetries).success =
      false) := by rw [hsign]; simp
  have h3 : ¬ (inp.gotEmails = false) := by rw [hmail]; simp
  have hro : register_once node inp s = ⟨mark_proxy_failed s node, 1,
      (signup_account inp.signupResp inp.maxRetries).requests, 1, 2,
      false⟩ := by
    simp only [register_once]
    rw [if_neg h1, if_neg h2, if_neg h3, if_neg hc1, hv1]
    rw [if_neg (by simp)]
    rw [hcm, if_pos (by simp), hfresh, if_pos rfl]
    rw [if_neg (by rw [hv2]; simp)]
  rw [hro]
  refine ⟨rfl, rfl, rfl, rfl, ?_⟩
  intro s2 n2 i2
  simp only [register_once]
  repeat' split
  all_goals first
  | exact Nat.zero_le 1
  | exact Nat.le_refl 1

/-- C4, witness: a run reaching the verify step whose first verify signals
a checkpoint and whose retried verify fails again, plus one concrete
instance of the at-most-one-refresh bound. -/
theorem c4_single_recovery_cycle_witness :
    (register_once "A"
      ⟨true, 5, (fun _ => .ok false 200 true), true, true, some "123456",
        ⟨false, true⟩, true, ⟨false, true⟩⟩
      (load_state ["A"] 3 none)).cookieRefreshes = 1 ∧
    (register_once "A"
      ⟨true, 5, (fun _ => .ok false 200 true), true, true, some "123456",
        ⟨false, true⟩, true, ⟨false, true⟩⟩
      (load_state ["A"] 3 none)).verifyCalls = 2 ∧
    (register_once "A"
      ⟨true, 5, (fun _ => .ok false 200 true), true, true, some "123456",
        ⟨false, true⟩, true, ⟨false, true⟩⟩
      (load_state ["A"] 3 none)).success = false ∧
    (register_once "A"
      ⟨true, 5, (fun _ => .ok false 200 true), true, true, some "123456",
        ⟨false, true⟩, true, ⟨false, true⟩⟩
      (load_state ["A"] 3 none)).markFailedCalls = 1 ∧
    (register_once "B"
      ⟨false, 0, (fun _ => .exn), false, false, none, ⟨false, false⟩, false,
        ⟨false, false⟩⟩
      (load_state [] 1 none)).cookieRefreshes ≤ 1 := by
  have hmain := c4_single_recovery_cycle (load_state ["A"] 3 none) "A"
    ⟨true, 5, (fun _ => .ok false 200 true), true, true, some "123456",
      ⟨false, true⟩, true, ⟨false, true⟩⟩
    rfl (by decide) rfl (by decide) rfl rfl rfl rfl
  exact ⟨hmain.1, hmain.2.1, hmain.2.2.1, hmain.2.2.2.1,
    hmain.2.2.2.2 (load_state [] 1 none) "B"
      ⟨false, 0, (fun _ => .exn), false, false, none, ⟨false, false⟩, false,
        ⟨false, false⟩⟩⟩

/-- C9: when `extract_verification_code` produces nothing (or an empty
string, equally falsy in the source), the run terminates as a failure with
the pool component exactly the input state: no `mark_proxy_failed` call is
made, so every node's failure count and active membership are untouched by
that step. -/
theorem c9_extraction_miss_frame (s : PoolState) (node : String)
    (inp : RegInputs)
    (hemail : inp.emailOk = true)
    (hsign : (signup_account inp.signupResp inp.maxRetries).success = true)
    (hmail : inp.gotEmails = true)
    (hcode : inp.extractedCode = none ∨ inp.extractedCode = some "") :
    register_once node inp s =
      ⟨s, 0, (signup_account inp.signupResp inp.maxRetries).requests, 0, 0,
        false⟩ ∧
    (∀ q, failureCount (register_once node inp s).pool q =
      failureCount s q) ∧
    (register_once node inp s).pool.activeProxies = s.activeProxies := by
  have h1 : ¬ (inp.emailOk = false) := by rw [hemail]; simp
  have h2 : ¬ ((signup_account inp.signupResp inp.maxRetries).success =
      false) := by rw [hsign]; simp
  have h3 : ¬ (inp.gotEmails = false) := by rw [hmail]; simp
  have hro : register_once node inp s =
      ⟨s, 0, (signup_account inp.signupResp inp.maxRetries).requests, 0, 0,
        false⟩ := by
    simp only [register_once]
    rw [if_neg h1, if_neg h2, if_neg h3, if_pos hcode]
  exact ⟨hro, fun q => by rw [hro], by rw [hro]⟩

/-- C9, witness: a run reaching extraction with no code found, on a concrete
pool. -/
theorem c9_extraction_miss_frame_witness :
    register_once "A"
      ⟨true, 5, (fun _ => .ok false 200 true), true, true, none,
        ⟨true, false⟩, false, ⟨false, false⟩⟩
      (load_state ["A"] 3 none) =
      ⟨load_state ["A"] 3 none, 0, 1, 0, 0, false⟩ ∧
    (∀ q, failureCount (register_once "A"
      ⟨true, 5, (fun _ => .ok false 200 true), true, true, none,
        ⟨true, false⟩, false, ⟨false, false⟩⟩
      (load_state ["A"] 3 none)).pool q =
      failureCount (load_state ["A"] 3 none) q) ∧
    (register_once "A"
      ⟨true, 5, (fun _ => .ok false 200 true), true, true, none,
        ⟨true, false⟩, false, ⟨false, false⟩⟩
      (load_state ["A"] 3 none)).pool.activeProxies =
      (load_state ["A"] 3 none).activeProxies :=
  c9_extraction_miss_frame (load_state ["A"] 3 none) "A"
    ⟨true, 5, (fun _ => .ok false 200 true), true, true, none,
      ⟨true, false⟩, false, ⟨false, false⟩⟩
    rfl (by decide) rfl (by decide)
